import Mathlib

/-!
Verification of the ZeroBrave policy-composition core.

Shallow embedding of `src/main.py` and `src/tui.py`:
Python dicts are insertion-ordered association lists (`Dict`), Python
values are `PyValue`, and each source function becomes a Lean function
of the same name.  The catalog (`CATEGORIES`) and profile registry
(`PROFILES`) are transcribed verbatim from `tui.py`.
-/

/-- A Python runtime value as it occurs in policy documents:
booleans, integers, strings, or lists. -/
inductive PyValue : Type where
  | bool (b : Bool)
  | int (n : Int)
  | str (s : String)
  | list (xs : List PyValue)

/-- A Python `dict` with string keys, modelled as an insertion-ordered
association list (unique keys are an invariant of Python dicts, not of
this representation). -/
abbrev Dict (α : Type) : Type := List (String × α)

/-- `d[k]` as a total lookup: value at the first occurrence of `k`. -/
def dictGet {α : Type} (d : Dict α) (k : String) : Option α :=
  match d with
  | [] => none
  | (k2, v) :: rest => if k2 = k then some v else dictGet rest k

/-- `d[k] = v`: replace the value at the first occurrence of `k`
(keeping its position, as a Python dict does), else append `(k, v)`. -/
def dictSet {α : Type} (d : Dict α) (k : String) (v : α) : Dict α :=
  match d with
  | [] => [(k, v)]
  | (k2, w) :: rest => if k2 = k then (k2, v) :: rest else (k2, w) :: dictSet rest k v

/-- `d.update(pairs)`: assign every pair in order (last write wins). -/
def dictUpdate {α : Type} (d : Dict α) (pairs : List (String × α)) : Dict α :=
  pairs.foldl (fun acc kv => dictSet acc kv.1 kv.2) d

/-- Value of the last pair whose key is `k` (the binding that survives
when the pairs are assigned left to right into a dict). -/
def lastVal {α : Type} : List (String × α) → String → Option α
  | [], _ => none
  | kv :: rest, k =>
    match lastVal rest k with
    | some v => some v
    | none => if kv.1 = k then some kv.2 else none

/-- One entry of the `CATEGORIES` table of `tui.py`:
`(key, tag, name, desc, help_text, policies)`. -/
structure Category where
  id : String
  tag : String
  title : String
  summary : String
  help_text : String
  policies : Dict PyValue

/-- The `CATEGORIES` table of `tui.py`, transcribed in declaration order. -/
def CATEGORIES : List Category := [
  { id := "ai", tag := "[AI]", title := "Disable AI Features",
    summary := "Leo, Gemini, Lens, AI Writing",
    help_text := "Disables all AI assistants including Leo (Brave\x27s AI), Google Gemini integration, Google Lens features, and AI-powered writing helpers.",
    policies := [
      ("BraveAIChatEnabled", .bool false),
      ("HelpMeWriteSettings", .int 2),
      ("GeminiSettings", .int 1),
      ("GenAiDefaultSettings", .int 2),
      ("GenAiLensOverlaySettings", .int 2),
      ("GenAILocalFoundationalModelSettings", .int 1),
      ("LensRegionSearchEnabled", .bool false),
      ("LensDesktopNTPSearchEnabled", .bool false),
      ("LensOverlaySettings", .int 1)] },
  { id := "privacy", tag := "[PRIV]", title := "Block Tracking",
    summary := "Cookies, Fingerprinting, WebRTC",
    help_text := "Blocks third-party cookies, enables fingerprinting protection, disables Privacy Sandbox, and prevents WebRTC IP leaks for enhanced privacy.",
    policies := [
      ("BlockThirdPartyCookies", .bool true),
      ("PrivacySandboxFingerprintingProtectionEnabled", .bool true),
      ("PrivacySandboxPromptEnabled", .bool false),
      ("PrivacySandboxAdTopicsEnabled", .bool false),
      ("PrivacySandboxSiteEnabledAdsEnabled", .bool false),
      ("PrivacySandboxAdMeasurementEnabled", .bool false),
      ("WebRtcIPHandling", .str "disable_non_proxied_udp"),
      ("WebRtcEventLogCollectionAllowed", .bool false)] },
  { id := "telemetry", tag := "[TEL]", title := "Disable Telemetry",
    summary := "Metrics, Reports, Feedback",
    help_text := "Completely disables all telemetry, usage statistics, crash reports, and feedback mechanisms. No data sent to Brave or Google.",
    policies := [
      ("MetricsReportingEnabled", .bool false),
      ("DeviceMetricsReportingEnabled", .bool false),
      ("UrlKeyedAnonymizedDataCollectionEnabled", .bool false),
      ("UrlKeyedMetricsAllowed", .bool false),
      ("CloudProfileReportingEnabled", .bool false),
      ("CloudReportingEnabled", .bool false),
      ("ReportExtensionsAndPluginsData", .bool false),
      ("ReportMachineIDData", .bool false),
      ("ReportPolicyData", .bool false),
      ("ReportUserIDData", .bool false),
      ("ReportVersionData", .bool false),
      ("UserFeedbackAllowed", .bool false),
      ("FeedbackSurveysEnabled", .bool false)] },
  { id := "security", tag := "[SEC]", title := "Enhanced Security",
    summary := "Safe Browsing, Updates",
    help_text := "Enables Enhanced Safe Browsing (level 2) for better protection against phishing and malware. Keeps component updates enabled for security patches.",
    policies := [
      ("SafeBrowsingProtectionLevel", .int 2),
      ("SafeBrowsingExtendedReportingEnabled", .bool false),
      ("SafeBrowsingSurveysEnabled", .bool false),
      ("ComponentUpdatesEnabled", .bool true)] },
  { id := "autofill", tag := "[AUTO]", title := "Disable Autofill",
    summary := "Passwords, Payments, Addresses",
    help_text := "Disables all autofill features including password manager, credit cards, and addresses. Use a dedicated password manager instead.",
    policies := [
      ("PaymentMethodQueryEnabled", .bool false),
      ("AutofillAddressEnabled", .bool false),
      ("AutofillCreditCardEnabled", .bool false),
      ("AutofillPredictionSettings", .int 2),
      ("PasswordManagerEnabled", .bool false),
      ("PasswordLeakDetectionEnabled", .bool false),
      ("PasswordSharingEnabled", .bool false)] },
  { id := "sync", tag := "[SYNC]", title := "Disable Sync",
    summary := "No Cloud, No Sign-in",
    help_text := "Prevents browser sync and sign-in. Your data stays local and is never uploaded to Brave\x27s servers.",
    policies := [
      ("SyncDisabled", .bool true),
      ("BrowserSignin", .int 0)] },
  { id := "perms", tag := "[PERM]", title := "Block Permissions",
    summary := "Location, Notifications, USB",
    help_text := "Sets all sensitive permissions to \x27blocked by default\x27. Sites cannot access your location, send notifications, or connect to hardware without explicit permission.",
    policies := [
      ("DefaultGeolocationSetting", .int 2),
      ("DefaultNotificationsSetting", .int 2),
      ("DefaultWebBluetoothGuardSetting", .int 2),
      ("DefaultWebUsbGuardSetting", .int 2),
      ("DefaultFileSystemReadGuardSetting", .int 2),
      ("DefaultFileSystemWriteGuardSetting", .int 2),
      ("DefaultLocalFontsSetting", .int 2),
      ("DefaultSensorsSetting", .int 2),
      ("DefaultSerialGuardSetting", .int 2),
      ("DefaultCameraAccessAllowed", .bool false),
      ("DefaultMicAccessAllowed", .bool false),
      ("ScreenCaptureAllowed", .bool false),
      ("AutoplayAllowed", .bool false)] },
  { id := "brave", tag := "[BRAVE]", title := "Brave Specific",
    summary := "Rewards, Wallet, VPN, Talk",
    help_text := "Disables Brave-specific features: Rewards/BAT tokens, crypto wallet, VPN promotions, and Brave Talk video calls.",
    policies := [
      ("BraveRewardsDisabled", .bool true),
      ("BraveWalletDisabled", .bool true),
      ("BraveVPNDisabled", .int 1),
      ("TorDisabled", .bool true),
      ("BraveTalkEnabled", .bool false)] }]

/-- One entry of the `PROFILES` registry of `tui.py`. -/
structure Profile where
  name : String
  desc : String
  categories : List String
  deriving DecidableEq

/-- The `PROFILES` registry of `tui.py`, in declaration order. -/
def PROFILES : Dict Profile := [
  ("strict",
   { name := "Strict", desc := "Maximum privacy - all protections enabled",
     categories := ["ai", "privacy", "telemetry", "security", "autofill", "sync", "perms", "brave"] }),
  ("balanced",
   { name := "Balanced", desc := "Good privacy with some convenience",
     categories := ["ai", "privacy", "telemetry", "security", "sync", "brave"] }),
  ("minimal",
   { name := "Minimal", desc := "Basic privacy - only essentials",
     categories := ["ai", "telemetry", "brave"] })]

/-- The mutable session state of class `TUI`: the enabled-set dict, the
current profile marker, and the changes counter (presentation-only
fields such as the console are omitted). -/
structure TUIState where
  enabled : Dict Bool
  current_profile : String
  changes_made : Nat
  deriving DecidableEq

namespace TUI

/-- `TUI.__init__`: enabled-set all true (one entry per catalog
category, in catalog order), profile `"strict"`, zero changes. -/
def initState : TUIState :=
  { enabled := CATEGORIES.map (fun c => (c.id, true)),
    current_profile := "strict",
    changes_made := 0 }

/-- One iteration of the loop in `TUI.apply_profile`: set the category
to membership in the profile, bumping the change counter when the value
flips.  (The Python read `self.enabled[cat_key]` assumes the key is
present; on a state satisfying the enabled-set domain invariant it
always is, and `getD false` is only a totalization of that read.) -/
def applyStep (enabledCats : List String) (st : TUIState) (c : Category) : TUIState :=
  let old_state := (dictGet st.enabled c.id).getD false
  let new_state := enabledCats.contains c.id
  { st with
    enabled := dictSet st.enabled c.id new_state,
    changes_made := if old_state ≠ new_state then st.changes_made + 1 else st.changes_made }

/-- `TUI.apply_profile`: unknown key returns with no change at all;
a known profile overwrites every catalog category with membership in
the profile and records the profile key. -/
def apply_profile (profile_key : String) (st : TUIState) : TUIState :=
  match dictGet PROFILES profile_key with
  | none => st
  | some profile =>
    let st2 := CATEGORIES.foldl (applyStep profile.categories) st
    { st2 with current_profile := profile_key }

/-- The loop of `TUI.build_policies`, parameterized by the category
list it iterates (the source iterates the module constant
`CATEGORIES`): `result.update(policies)` for each enabled category. -/
def buildPoliciesOver (cats : List Category) (enabled : String → Bool) : Dict PyValue :=
  cats.foldl (fun result c => if enabled c.id then dictUpdate result c.policies else result) []

/-- `TUI.build_policies`: merge the policy dicts of the enabled
categories in catalog order into a fresh dict. -/
def build_policies (st : TUIState) : Dict PyValue :=
  buildPoliciesOver CATEGORIES (fun k => (dictGet st.enabled k).getD false)

/-- `TUI.count_enabled`: `(number of true entries in the enabled dict,
sum of the per-category policy-dict sizes over enabled categories)`. -/
def count_enabled (st : TUIState) : Nat × Nat :=
  ((st.enabled.filter (fun kv => kv.2)).length,
   ((CATEGORIES.filter (fun c => (dictGet st.enabled c.id).getD false)).map
      (fun c => c.policies.length)).sum)

/-- `TUI.toggle_with_feedback`: for `1 <= idx <= 8` flip the idx-th
category, bump the change counter, and mark the profile `"custom"`;
otherwise do nothing. -/
def toggle_with_feedback (idx : Nat) (st : TUIState) : TUIState :=
  if 1 ≤ idx ∧ idx ≤ 8 then
    match CATEGORIES[idx - 1]? with
    | some c =>
      { st with
        enabled := dictSet st.enabled c.id (!((dictGet st.enabled c.id).getD false)),
        changes_made := st.changes_made + 1,
        current_profile := "custom" }
    | none => st
  else st

/-- The `a` branch of `TUI.run`: if any category is enabled set every
entry of the enabled dict to false, else to true; bump the change
counter and mark the profile `"custom"`.  (The Python loop assigns
every existing key, which rewrites each entry value in place.) -/
def toggle_all (st : TUIState) : TUIState :=
  let target := !(st.enabled.any (fun kv => kv.2))
  { st with
    enabled := st.enabled.map (fun kv => (kv.1, target)),
    changes_made := st.changes_made + 1,
    current_profile := "custom" }

end TUI

/-- The enabled-set domain invariant of the spec: one entry per catalog
category, no extras, no omissions (the code moreover keeps them in
catalog order, which this equation also records). -/
abbrev EnabledWF (d : Dict Bool) : Prop :=
  d.map Prod.fst = CATEGORIES.map Category.id

/-- A session state whose enabled-set is all false (used for the
all-false parts of the claims). -/
def allFalseState : TUIState :=
  { enabled := CATEGORIES.map (fun c => (c.id, false)),
    current_profile := "strict",
    changes_made := 0 }

/-- Follows the spec\x27s words for `compose` (4.3): the value of key `k`
is the one from the latest enabled category in catalog order whose
policy mapping defines `k`; `none` if no enabled category defines it. -/
def composeSpecValue : List Category → (String → Bool) → String → Option PyValue
  | [], _, _ => none
  | c :: rest, enabled, k =>
    match composeSpecValue rest enabled k with
    | some v => some v
    | none => if enabled c.id then dictGet c.policies k else none

/-! ## Validator (`validate_policies` in `main.py`) -/

/-- The four type kinds named by the validator type table
(`bool`, `int`, `str`, `list`). -/
inductive PyKind : Type where
  | bool
  | int
  | str
  | list
  deriving DecidableEq

/-- `expected_type.__name__` for the table entries. -/
def typeName : PyKind → String
  | .bool => "bool"
  | .int => "int"
  | .str => "str"
  | .list => "list"

/-- `type(value).__name__` for a runtime value. -/
def pyTypeName : PyValue → String
  | .bool _ => "bool"
  | .int _ => "int"
  | .str _ => "str"
  | .list _ => "list"

/-- Python `isinstance(value, expected_type)`.  Note that in Python
`bool` is a subclass of `int`, so a boolean value is an instance of
`int` as well. -/
def isinst (v : PyValue) : PyKind → Bool
  | .bool => match v with | .bool _ => true | _ => false
  | .int => match v with | .bool _ => true | .int _ => true | _ => false
  | .str => match v with | .str _ => true | _ => false
  | .list => match v with | .list _ => true | _ => false

/-- Python `value is False`: identity with the `False` singleton, so it
holds exactly for the boolean `false` (not for `0`). -/
def isFalseBool : PyValue → Bool
  | .bool false => true
  | _ => false

/-- The `expected_types` table of `validate_policies`, in declaration
order. -/
def expected_types : List (String × PyKind) := [
  ("BraveAIChatEnabled", .bool),
  ("BlockThirdPartyCookies", .bool),
  ("MetricsReportingEnabled", .bool),
  ("SyncDisabled", .bool),
  ("PasswordManagerEnabled", .bool),
  ("TranslateEnabled", .bool),
  ("SpellcheckEnabled", .bool),
  ("QuicAllowed", .bool),
  ("AutoplayAllowed", .bool),
  ("ComponentUpdatesEnabled", .bool),
  ("SafeBrowsingProtectionLevel", .int),
  ("HelpMeWriteSettings", .int),
  ("GeminiSettings", .int),
  ("GenAiDefaultSettings", .int),
  ("DefaultCookiesSetting", .int),
  ("DefaultGeolocationSetting", .int),
  ("DefaultNotificationsSetting", .int),
  ("BrowserSignin", .int),
  ("DiskCacheSize", .int),
  ("WebRtcIPHandling", .str),
  ("DnsOverHttpsMode", .str),
  ("CookiesSessionOnlyForUrls", .list)]

/-- The type-mismatch warning text
`f"'{key}' should be {expected_type.__name__}, got {type(value).__name__}"`. -/
def mismatchMsg (key : String) (kind : PyKind) (v : PyValue) : String :=
  "\x27" ++ key ++ "\x27 should be " ++ typeName kind ++ ", got " ++ pyTypeName v

/-- The fixed advisory warning about disabled component updates. -/
def advisoryMsg : String :=
  "ComponentUpdatesEnabled=false may prevent security updates"

/-- The warning for a non-dict argument. -/
def notDictMsg : String :=
  "Policies must be a JSON object"

/-- The argument of `validate_policies`: either a dict or some other
Python value (the source checks `isinstance(policies, dict)`). -/
inductive PyDoc : Type where
  | dict (entries : Dict PyValue)
  | nondict (v : PyValue)

/-- `validate_policies` from `main.py`: a non-dict yields the single
object warning; otherwise one mismatch warning per type-table entry
whose key is present with a value failing `isinstance`, in table
order, followed by the update-safety advisory when
`ComponentUpdatesEnabled` is the boolean `false`. -/
def validate_policies : PyDoc → List String
  | .nondict _ => [notDictMsg]
  | .dict policies =>
    let typeWarnings := expected_types.foldl (fun ws kt =>
      match dictGet policies kt.1 with
      | some value => if isinst value kt.2 then ws else ws ++ [mismatchMsg kt.1 kt.2 value]
      | none => ws) []
    match dictGet policies "ComponentUpdatesEnabled" with
    | some v => if isFalseBool v then typeWarnings ++ [advisoryMsg] else typeWarnings
    | none => typeWarnings

/-! ## JSONC comment stripping (`strip_json_comments` in `main.py`)

The source applies `re.sub` with the pattern
`("(?:[^"\x7c\\]|\\.)*")|//[^\n]*|/\*[\s\S]*?\*/` (alternation bar
inside the string class written here escaped), copying string-literal
matches through and deleting comment matches.  The scan below is the
operational reading of that regex: at each position the engine tries,
in order, a complete string literal, a line comment, a lazily closed
block comment; if none matches the character is copied and the scan
advances by one. -/

/-- Match of the string-literal alternative `"(?:[^"\\]|\\.)*"` right
after its opening quote: returns the matched body (closing quote
included) and the rest, or `none` when no closing quote is reachable
(`\\.` cannot consume a newline, and an unterminated literal fails). -/
def scanStr : List Char → Option (List Char × List Char)
  | [] => none
  | c :: rest =>
    if c = '"' then some (['"'], rest)
    else if c = '\\' then
      match rest with
      | [] => none
      | c2 :: rest2 =>
        if c2 = '\n' then none
        else
          match scanStr rest2 with
          | some (body, rem) => some (c :: c2 :: body, rem)
          | none => none
    else
      match scanStr rest with
      | some (body, rem) => some (c :: body, rem)
      | none => none

/-- Match of the lazy block-comment tail `[\s\S]*?\*/` right after the
opener: returns the input after the first `*/`, or `none` when no
`*/` occurs (the alternative then fails to match). -/
def dropBlock : List Char → Option (List Char)
  | [] => none
  | c :: rest =>
    if c = '*' then
      match rest with
      | c2 :: rest2 => if c2 = '/' then some rest2 else dropBlock rest
      | [] => none
    else dropBlock rest

/-- Whether the character list contains the two-character close `*/`. -/
def containsClose : List Char → Bool
  | [] => false
  | c :: rest =>
    (c = '*' && (match rest with | c2 :: _ => c2 = '/' | [] => false)) || containsClose rest

/-- The scan loop of the regex substitution.  `fuel` only bounds the
recursion; every step consumes at least one character, so
`fuel = length` always suffices. -/
def stripGo : Nat → List Char → List Char
  | 0, _ => []
  | _, [] => []
  | fuel + 1, c :: rest =>
    if c = '"' then
      match scanStr rest with
      | some (body, rem) => '"' :: (body ++ stripGo fuel rem)
      | none => '"' :: stripGo fuel rest
    else if c = '/' then
      match rest with
      | '/' :: rest2 => stripGo fuel (rest2.dropWhile (fun ch => ch ≠ '\n'))
      | '*' :: rest2 =>
        match dropBlock rest2 with
        | some rem => stripGo fuel rem
        | none => '/' :: stripGo fuel rest
      | _ => c :: stripGo fuel rest
    else c :: stripGo fuel rest

/-- `strip_json_comments` from `main.py`. -/
def strip_json_comments (s : String) : String :=
  String.mk (stripGo s.data.length s.data)

/-! ## Backup discovery (`find_latest_backup` in `main.py`) -/

/-- Python string `<`: lexicographic comparison of the code points. -/
def lexLt : List Char → List Char → Bool
  | _, [] => false
  | [], _ :: _ => true
  | a :: as, b :: bs =>
    if a.toNat < b.toNat then true
    else if b.toNat < a.toNat then false
    else lexLt as bs

/-- `s < t` for Python strings (code-point lexicographic order). -/
def strLtB (s t : String) : Bool := lexLt s.data t.data

/-- Prefix test on character lists. -/
def isPre : List Char → List Char → Bool
  | [], _ => true
  | _ :: _, [] => false
  | a :: as, b :: bs => a = b && isPre as bs

/-- Whether a sibling filename matches the glob `f"{stem}.backup_*"`
(filenames contain no path separator, so the glob is a prefix test). -/
def matchesBackup (stem nm : String) : Bool :=
  isPre (stem ++ ".backup_").data nm.data

/-- Insert into a descending-sorted list, keeping it descending. -/
def insertDesc (s : String) : List String → List String
  | [] => [s]
  | t :: ts => if strLtB t s then s :: t :: ts else t :: insertDesc s ts

/-- `sorted(l, reverse=True)`: a descending sort. -/
def sortDesc (l : List String) : List String := l.foldr insertDesc []

/-- `find_latest_backup` from `main.py`, over the sibling filenames of
the target: filter the names matching the backup glob for the
target\x27s stem, sort descending, take the first (or `None`). -/
def find_latest_backup (stem : String) (siblings : List String) : Option String :=
  (sortDesc (siblings.filter (fun nm => matchesBackup stem nm))).head?

/-! ## Dict lemmas -/

theorem dictGet_dictSet {α : Type} (d : Dict α) (k k2 : String) (v : α) :
    dictGet (dictSet d k v) k2 = if k = k2 then some v else dictGet d k2 := by
  induction d with
  | nil => simp [dictGet, dictSet]
  | cons kv rest ih =>
    obtain ⟨k3, w⟩ := kv
    by_cases h3 : k3 = k
    · subst h3
      by_cases h2 : k3 = k2
      · subst h2; simp [dictGet, dictSet]
      · simp [dictGet, dictSet, h2]
    · by_cases h2 : k3 = k2
      · subst h2
        have hk : ¬ (k = k3) := fun h => h3 h.symm
        simp [dictGet, dictSet, h3, hk]
      · simp [dictGet, dictSet, h3, h2, ih]

theorem keys_dictSet_of_mem {α : Type} (d : Dict α) (k : String) (v : α)
    (h : k ∈ d.map Prod.fst) :
    (dictSet d k v).map Prod.fst = d.map Prod.fst := by
  induction d with
  | nil => simp at h
  | cons kv rest ih =>
    obtain ⟨k3, w⟩ := kv
    by_cases h3 : k3 = k
    · simp [dictSet, h3]
    · have : k ∈ rest.map Prod.fst := by
        rcases List.mem_map.1 h with ⟨p, hp, hfst⟩
        rcases List.mem_cons.1 hp with h1 | h1
        · exfalso; apply h3; rw [h1] at hfst; exact hfst
        · exact List.mem_map.2 ⟨p, h1, hfst⟩
      simp [dictSet, h3, ih this]

theorem dictSet_eq_append_of_not_mem {α : Type} (d : Dict α) (k : String) (v : α)
    (h : k ∉ d.map Prod.fst) :
    dictSet d k v = d ++ [(k, v)] := by
  induction d with
  | nil => simp [dictSet]
  | cons kv rest ih =>
    obtain ⟨k3, w⟩ := kv
    simp only [List.map_cons, List.mem_cons] at h
    push_neg at h
    have h3 : k3 ≠ k := fun hh => h.1 hh.symm
    simp [dictSet, h3, ih h.2]

theorem dictGet_eq_none_iff {α : Type} (d : Dict α) (k : String) :
    dictGet d k = none ↔ k ∉ d.map Prod.fst := by
  induction d with
  | nil => simp [dictGet]
  | cons kv rest ih =>
    obtain ⟨k3, w⟩ := kv
    by_cases h3 : k3 = k
    · subst h3; simp [dictGet]
    · have hne : k ≠ k3 := Ne.symm h3
      simp [dictGet, h3, ih, hne]

theorem dict_ext {α : Type} (d1 d2 : Dict α)
    (hkeys : d1.map Prod.fst = d2.map Prod.fst)
    (hnd : (d1.map Prod.fst).Nodup)
    (hget : ∀ k, dictGet d1 k = dictGet d2 k) : d1 = d2 := by
  induction d1 generalizing d2 with
  | nil =>
    cases d2 with
    | nil => rfl
    | cons kv rest => simp at hkeys
  | cons kv rest ih =>
    obtain ⟨k, a⟩ := kv
    cases d2 with
    | nil => simp at hkeys
    | cons kv2 rest2 =>
      obtain ⟨k2, b⟩ := kv2
      simp only [List.map_cons, List.cons.injEq] at hkeys
      obtain ⟨hk, htail⟩ := hkeys
      subst hk
      have hval : a = b := by
        have := hget k
        simpa [dictGet] using this
      subst hval
      have hnotin : k ∉ rest.map Prod.fst := by
        simp only [List.map_cons, List.nodup_cons] at hnd
        exact hnd.1
      have hrest : rest = rest2 := by
        apply ih rest2 htail
        · simp only [List.map_cons, List.nodup_cons] at hnd
          exact hnd.2
        · intro k2
          by_cases hkk : k2 = k
          · subst hkk
            have h1 : dictGet rest k2 = none := (dictGet_eq_none_iff rest k2).2 hnotin
            have h2 : dictGet rest2 k2 = none := by
              rw [dictGet_eq_none_iff, ← htail]; exact hnotin
            rw [h1, h2]
          · have := hget k2
            have hne : k ≠ k2 := fun h => hkk h.symm
            simpa [dictGet, hne] using this
      rw [hrest]

theorem dictGet_dictUpdate {α : Type} (pairs : List (String × α)) (d : Dict α) (k : String) :
    dictGet (dictUpdate d pairs) k =
      match lastVal pairs k with
      | some v => some v
      | none => dictGet d k := by
  induction pairs generalizing d with
  | nil => simp [dictUpdate, lastVal]
  | cons kv rest ih =>
    obtain ⟨k1, v1⟩ := kv
    have step : dictUpdate d ((k1, v1) :: rest) = dictUpdate (dictSet d k1 v1) rest := by
      simp [dictUpdate]
    rw [step, ih]
    simp only [lastVal]
    cases hlv : lastVal rest k with
    | some v => simp
    | none =>
      simp only []
      rw [dictGet_dictSet]
      by_cases h1 : k1 = k
      · simp [h1]
      · simp [h1]

theorem lastVal_eq_none_iff {α : Type} (pairs : List (String × α)) (k : String) :
    lastVal pairs k = none ↔ k ∉ pairs.map Prod.fst := by
  induction pairs with
  | nil => simp [lastVal]
  | cons kv rest ih =>
    obtain ⟨k1, v1⟩ := kv
    simp only [lastVal, List.map_cons, List.mem_cons]
    cases hlv : lastVal rest k with
    | some v =>
      simp only []
      constructor
      · intro h; exact absurd h (by simp)
      · intro h
        exfalso
        have : k ∈ rest.map Prod.fst := by
          by_contra hc
          rw [← ih] at hc
          rw [hc] at hlv
          exact Option.noConfusion hlv
        exact h (Or.inr this)
    | none =>
      have hrest : k ∉ rest.map Prod.fst := (ih).1 hlv
      by_cases h1 : k1 = k
      · simp [h1, hrest]
      · have hne : k ≠ k1 := Ne.symm h1
        simp [h1, hrest, hne]

theorem lastVal_eq_dictGet_of_nodup {α : Type} (pairs : List (String × α)) (k : String)
    (hnd : (pairs.map Prod.fst).Nodup) :
    lastVal pairs k = dictGet pairs k := by
  induction pairs with
  | nil => simp [lastVal, dictGet]
  | cons kv rest ih =>
    obtain ⟨k1, v1⟩ := kv
    simp only [List.map_cons, List.nodup_cons] at hnd
    by_cases h1 : k1 = k
    · subst h1
      have : lastVal rest k1 = none := (lastVal_eq_none_iff rest k1).2 hnd.1
      simp [lastVal, dictGet, this]
    · simp only [lastVal, dictGet, h1, if_false, ih hnd.2]
      cases dictGet rest k with
      | some v => simp
      | none => simp [h1]

/-! ## Catalog facts and composition lemmas -/

theorem keys_dictUpdate_of_disjoint {α : Type} (pairs : List (String × α)) (d : Dict α)
    (hnd : (pairs.map Prod.fst).Nodup)
    (hdisj : ∀ k ∈ pairs.map Prod.fst, k ∉ d.map Prod.fst) :
    (dictUpdate d pairs).map Prod.fst = d.map Prod.fst ++ pairs.map Prod.fst := by
  induction pairs generalizing d with
  | nil => simp [dictUpdate]
  | cons kv rest ih =>
    obtain ⟨k1, v1⟩ := kv
    have step : dictUpdate d ((k1, v1) :: rest) = dictUpdate (dictSet d k1 v1) rest := by
      simp [dictUpdate]
    rw [step]
    simp only [List.map_cons, List.nodup_cons] at hnd
    have hk1 : k1 ∉ d.map Prod.fst := hdisj k1 (by simp)
    have hset : dictSet d k1 v1 = d ++ [(k1, v1)] := dictSet_eq_append_of_not_mem d k1 v1 hk1
    have hdisj2 : ∀ k ∈ rest.map Prod.fst, k ∉ (dictSet d k1 v1).map Prod.fst := by
      intro k hk
      rw [hset]
      simp only [List.map_append, List.mem_append, List.map_cons, List.map_nil,
        List.mem_singleton]
      push_neg
      refine ⟨hdisj k (by simp [hk]), ?_⟩
      exact fun he => hnd.1 (he ▸ hk)
    rw [ih (dictSet d k1 v1) hnd.2 hdisj2, hset]
    simp

theorem length_dictUpdate_of_disjoint {α : Type} (pairs : List (String × α)) (d : Dict α)
    (hnd : (pairs.map Prod.fst).Nodup)
    (hdisj : ∀ k ∈ pairs.map Prod.fst, k ∉ d.map Prod.fst) :
    (dictUpdate d pairs).length = d.length + pairs.length := by
  have h := congrArg List.length (keys_dictUpdate_of_disjoint pairs d hnd hdisj)
  simpa using h

theorem filterFlat_sublist {α β : Type} (p : α → Bool) (f : α → List β) :
    ∀ l : List α, (((l.filter p).flatMap f).Sublist (l.flatMap f)) := by
  intro l
  induction l with
  | nil => simp
  | cons c rest ih =>
    by_cases hc : p c
    · simp only [List.filter_cons_of_pos hc, List.flatMap_cons]
      exact List.Sublist.append_left ih (f c)
    · rw [List.filter_cons_of_neg hc]
      exact ih.trans (List.sublist_append_right (f c) _)

theorem catalog_ids_nodup : (CATEGORIES.map Category.id).Nodup := by decide

set_option maxHeartbeats 1000000 in
theorem catalog_keys_nodup :
    (CATEGORIES.flatMap (fun c => c.policies.map Prod.fst)).Nodup := by decide

theorem catalog_policies_nodup :
    ∀ c ∈ CATEGORIES, (c.policies.map Prod.fst).Nodup := by decide

theorem buildFold_lookup (enabled : String → Bool) (k : String) :
    ∀ (cats : List Category) (d : Dict PyValue),
    (∀ c ∈ cats, (c.policies.map Prod.fst).Nodup) →
    dictGet (cats.foldl
        (fun result c => if enabled c.id then dictUpdate result c.policies else result) d) k
      = match composeSpecValue cats enabled k with
        | some v => some v
        | none => dictGet d k := by
  intro cats
  induction cats with
  | nil => intro d _; simp [composeSpecValue]
  | cons c rest ih =>
    intro d h
    rw [List.foldl_cons]
    by_cases hc : enabled c.id
    · simp only [hc, if_true]
      rw [ih (dictUpdate d c.policies) (fun c2 hm => h c2 (List.mem_cons_of_mem _ hm))]
      rw [dictGet_dictUpdate,
        lastVal_eq_dictGet_of_nodup _ _ (h c (List.mem_cons_self _ _))]
      simp only [composeSpecValue, hc, if_true]
      cases composeSpecValue rest enabled k <;> cases dictGet c.policies k <;> simp
    · simp only [hc, Bool.false_eq_true, if_false]
      rw [ih d (fun c2 hm => h c2 (List.mem_cons_of_mem _ hm))]
      simp only [composeSpecValue, hc, Bool.false_eq_true, if_false]
      cases composeSpecValue rest enabled k <;> simp

theorem buildFold_allFalse :
    ∀ (cats : List Category) (d : Dict PyValue),
    cats.foldl
      (fun result c => if (fun _ : String => false) c.id then dictUpdate result c.policies
        else result) d = d := by
  intro cats
  induction cats with
  | nil => intro d; rfl
  | cons c rest ih =>
    intro d
    rw [List.foldl_cons]
    simp only [Bool.false_eq_true, if_false]
    exact ih d

theorem buildFold_length (enabled : String → Bool) :
    ∀ (cats : List Category) (d : Dict PyValue),
    ((d.map Prod.fst)
      ++ (cats.filter (fun c => enabled c.id)).flatMap (fun c => c.policies.map Prod.fst)).Nodup →
    (cats.foldl
        (fun result c => if enabled c.id then dictUpdate result c.policies else result) d).length
      = d.length + ((cats.filter (fun c => enabled c.id)).map (fun c => c.policies.length)).sum := by
  intro cats
  induction cats with
  | nil => intro d _; simp
  | cons c rest ih =>
    intro d h
    rw [List.foldl_cons]
    by_cases hc : enabled c.id
    · have hfil : List.filter (fun c2 => enabled c2.id) (c :: rest)
          = c :: List.filter (fun c2 => enabled c2.id) rest := by
        simp [List.filter_cons, hc]
      simp only [hc, if_true]
      rw [hfil] at h
      simp only [List.flatMap_cons] at h
      have h2 := h
      rw [List.nodup_append] at h2
      obtain ⟨hA, hBC, hABC⟩ := h2
      rw [List.nodup_append] at hBC
      obtain ⟨hB, hC, hBCdisj⟩ := hBC
      have hdisjBA : ∀ k ∈ c.policies.map Prod.fst, k ∉ d.map Prod.fst := by
        intro k hkB hkA
        exact hABC hkA (List.mem_append_left _ hkB)
      have hkeys := keys_dictUpdate_of_disjoint c.policies d hB hdisjBA
      have hlen := length_dictUpdate_of_disjoint c.policies d hB hdisjBA
      have hnodup2 :
          ((dictUpdate d c.policies).map Prod.fst
            ++ (rest.filter (fun c2 => enabled c2.id)).flatMap
                (fun c2 => c2.policies.map Prod.fst)).Nodup := by
        rw [hkeys, List.append_assoc]
        exact h
      rw [ih (dictUpdate d c.policies) hnodup2, hlen, hfil, List.map_cons, List.sum_cons]
      omega
    · have hfil : List.filter (fun c2 => enabled c2.id) (c :: rest)
          = List.filter (fun c2 => enabled c2.id) rest := by
        simp [List.filter_cons, hc]
      simp only [hc, Bool.false_eq_true, if_false]
      rw [hfil] at h
      rw [ih d h, hfil]

/-! ## Lemmas about the apply-profile loop -/

theorem applyFold_lookup (ecats : List String) :
    ∀ (cats : List Category) (st : TUIState) (k : String),
    (cats.map Category.id).Nodup →
    dictGet (cats.foldl (TUI.applyStep ecats) st).enabled k
      = if k ∈ cats.map Category.id then some (ecats.contains k)
        else dictGet st.enabled k := by
  intro cats
  induction cats with
  | nil => intro st k _; simp
  | cons c rest ih =>
    intro st k hnd
    simp only [List.map_cons, List.nodup_cons] at hnd
    rw [List.foldl_cons, ih (TUI.applyStep ecats st c) k hnd.2]
    have hstep : (TUI.applyStep ecats st c).enabled
        = dictSet st.enabled c.id (ecats.contains c.id) := rfl
    by_cases hk : k ∈ rest.map Category.id
    · simp [hk, List.map_cons]
    · by_cases hck : c.id = k
      · subst hck
        simp [hk, hstep, dictGet_dictSet]
      · have : k ∉ (c :: rest).map Category.id := by
          simp only [List.map_cons, List.mem_cons]
          push_neg
          exact ⟨Ne.symm hck, hk⟩
        simp only [hk, if_false, hstep, dictGet_dictSet, this]
        rw [if_neg hck]

theorem applyFold_keys (ecats : List String) :
    ∀ (cats : List Category) (st : TUIState),
    (∀ c ∈ cats, c.id ∈ st.enabled.map Prod.fst) →
    (cats.foldl (TUI.applyStep ecats) st).enabled.map Prod.fst
      = st.enabled.map Prod.fst := by
  intro cats
  induction cats with
  | nil => intro st _; rfl
  | cons c rest ih =>
    intro st h
    rw [List.foldl_cons]
    have hstep : (TUI.applyStep ecats st c).enabled
        = dictSet st.enabled c.id (ecats.contains c.id) := rfl
    have hkeys : (TUI.applyStep ecats st c).enabled.map Prod.fst
        = st.enabled.map Prod.fst := by
      rw [hstep, keys_dictSet_of_mem _ _ _ (h c (List.mem_cons_self _ _))]
    rw [ih (TUI.applyStep ecats st c) ?hm, hkeys]
    case hm =>
      intro c2 hm2
      rw [hkeys]
      exact h c2 (List.mem_cons_of_mem _ hm2)

/-! ## Claim theorems -/

/-- C1: `build_policies` iterates categories in catalog order and merges
each enabled category\x27s pairs with last-write-wins: the looked-up value
of every key equals the value from the latest enabled category defining
it (`composeSpecValue`, the spec\x27s description), composition is a total
function, and an all-false enabled-set yields the empty document. -/
theorem c1_compose_last_write_wins (cats : List Category) (enabled : String → Bool)
    (k : String) (hdicts : ∀ c ∈ cats, (c.policies.map Prod.fst).Nodup) :
    dictGet (TUI.buildPoliciesOver cats enabled) k = composeSpecValue cats enabled k
    ∧ TUI.buildPoliciesOver cats (fun _ => false) = [] := by
  constructor
  · rw [TUI.buildPoliciesOver, buildFold_lookup enabled k cats [] hdicts]
    cases composeSpecValue cats enabled k <;> simp [dictGet]
  · exact buildFold_allFalse cats []

/-- Witness for C1 at the real catalog with every category enabled. -/
theorem c1_witness :
    (∀ c ∈ CATEGORIES, (c.policies.map Prod.fst).Nodup)
    ∧ (dictGet (TUI.buildPoliciesOver CATEGORIES (fun _ => true)) "SyncDisabled"
        = composeSpecValue CATEGORIES (fun _ => true) "SyncDisabled"
      ∧ TUI.buildPoliciesOver CATEGORIES (fun _ => false) = []) :=
  ⟨catalog_policies_nodup,
   c1_compose_last_write_wins CATEGORIES (fun _ => true) "SyncDisabled"
     catalog_policies_nodup⟩

/-- C2: the policy count of `count_enabled` always equals the size of
the merged document of `build_policies` (the catalog\x27s policy keys are
globally distinct, so the per-category sums see no collisions), and at
the all-false enabled-set `count_enabled` returns `(0, 0)`. -/
theorem c2_count_matches_compose (st : TUIState) :
    (TUI.count_enabled st).2 = (TUI.build_policies st).length
    ∧ TUI.count_enabled allFalseState = (0, 0) := by
  constructor
  · rw [TUI.build_policies, TUI.buildPoliciesOver,
      buildFold_length (fun k => (dictGet st.enabled k).getD false) CATEGORIES [] ?hnd]
    · simp [TUI.count_enabled]
    case hnd =>
      simp only [List.map_nil, List.nil_append]
      exact List.Nodup.sublist (filterFlat_sublist _ _ CATEGORIES) catalog_keys_nodup
  · decide

/-- C3 counterexample: with the unknown profile id `"nonexistent"`,
`apply_profile` does not fail with a not-found error; it returns
normally and leaves the session state untouched. -/
theorem c3_counterexample :
    dictGet PROFILES "nonexistent" = none
    ∧ TUI.apply_profile "nonexistent" TUI.initState = TUI.initState := by
  exact ⟨by decide, by decide⟩

/-- C3 (amended): `apply_profile` with a profile id that is not a key
of the registry is a silent no-op — it signals no error and returns
with the whole session state unchanged. -/
theorem c3_unknown_profile_noop (profile_key : String) (st : TUIState)
    (h : dictGet PROFILES profile_key = none) :
    TUI.apply_profile profile_key st = st := by
  simp only [TUI.apply_profile, h]

/-- Witness for C3 (amended) at the unknown id `"unknown"`. -/
theorem c3_witness :
    dictGet PROFILES "unknown" = none
    ∧ TUI.apply_profile "unknown" allFalseState = allFalseState :=
  ⟨by decide, c3_unknown_profile_noop "unknown" allFalseState (by decide)⟩

/-- C10: on the unknown-profile path, `apply_profile` performs no
partial mutation: the enabled-set, the current-profile marker and the
changes counter are all exactly as before the call. -/
theorem c10_unknown_profile_preserves_state (profile_key : String) (st : TUIState)
    (h : dictGet PROFILES profile_key = none) :
    (TUI.apply_profile profile_key st).enabled = st.enabled
    ∧ (TUI.apply_profile profile_key st).current_profile = st.current_profile
    ∧ (TUI.apply_profile profile_key st).changes_made = st.changes_made := by
  simp [TUI.apply_profile, h]

/-- Witness for C10 at the unknown id `"custom"` (the marker value the
TUI uses for hand-edited selections, which is not a registry key). -/
theorem c10_witness :
    dictGet PROFILES "custom" = none
    ∧ ((TUI.apply_profile "custom" TUI.initState).enabled = TUI.initState.enabled
      ∧ (TUI.apply_profile "custom" TUI.initState).current_profile
          = TUI.initState.current_profile
      ∧ (TUI.apply_profile "custom" TUI.initState).changes_made
          = TUI.initState.changes_made) :=
  ⟨by decide, c10_unknown_profile_preserves_state "custom" TUI.initState (by decide)⟩

/-- C4: applying a known profile is a total overwrite of the
enabled-set: the result does not depend on the prior enabled-set, and
every catalog category id is mapped to true exactly when it is one of
the profile\x27s category ids. -/
theorem c4_apply_profile_total_overwrite (p : String) (profile : Profile)
    (X Y : TUIState) (hp : dictGet PROFILES p = some profile)
    (hX : EnabledWF X.enabled) (hY : EnabledWF Y.enabled) :
    (TUI.apply_profile p X).enabled = (TUI.apply_profile p Y).enabled
    ∧ ∀ c ∈ CATEGORIES,
        dictGet (TUI.apply_profile p X).enabled c.id
          = some (profile.categories.contains c.id) := by
  have happly : ∀ st : TUIState, (TUI.apply_profile p st).enabled
      = (CATEGORIES.foldl (TUI.applyStep profile.categories) st).enabled := by
    intro st
    simp [TUI.apply_profile, hp]
  have hmem : ∀ st : TUIState, EnabledWF st.enabled →
      ∀ c ∈ CATEGORIES, c.id ∈ st.enabled.map Prod.fst := by
    intro st hst c hc
    have hst2 : st.enabled.map Prod.fst = CATEGORIES.map Category.id := hst
    rw [hst2]
    exact List.mem_map_of_mem Category.id hc
  have hkeys : ∀ st : TUIState, EnabledWF st.enabled →
      (TUI.apply_profile p st).enabled.map Prod.fst = CATEGORIES.map Category.id := by
    intro st hst
    have hst2 : st.enabled.map Prod.fst = CATEGORIES.map Category.id := hst
    rw [happly st, applyFold_keys profile.categories CATEGORIES st (hmem st hst)]
    exact hst2
  have hlook : ∀ (st : TUIState) (k : String),
      dictGet (TUI.apply_profile p st).enabled k
        = if k ∈ CATEGORIES.map Category.id then some (profile.categories.contains k)
          else dictGet st.enabled k := by
    intro st k
    rw [happly st]
    exact applyFold_lookup profile.categories CATEGORIES st k catalog_ids_nodup
  constructor
  · apply dict_ext
    · rw [hkeys X hX, hkeys Y hY]
    · rw [hkeys X hX]
      exact catalog_ids_nodup
    · intro k
      rw [hlook X k, hlook Y k]
      by_cases hk : k ∈ CATEGORIES.map Category.id
      · simp [hk]
      · have h1 : dictGet X.enabled k = none := by
          rw [dictGet_eq_none_iff]
          have hX2 : X.enabled.map Prod.fst = CATEGORIES.map Category.id := hX
          rw [hX2]; exact hk
        have h2 : dictGet Y.enabled k = none := by
          rw [dictGet_eq_none_iff]
          have hY2 : Y.enabled.map Prod.fst = CATEGORIES.map Category.id := hY
          rw [hY2]; exact hk
        simp only [hk, if_false]
        rw [h1, h2]
  · intro c hc
    rw [hlook X c.id]
    simp [List.mem_map_of_mem Category.id hc]

/-- Witness for C4: the `"minimal"` profile applied to the all-true
initial state and to the all-false state gives the same enabled-set. -/
theorem c4_witness :
    dictGet PROFILES "minimal" = some
      { name := "Minimal", desc := "Basic privacy - only essentials",
        categories := ["ai", "telemetry", "brave"] }
    ∧ EnabledWF TUI.initState.enabled
    ∧ EnabledWF allFalseState.enabled
    ∧ ((TUI.apply_profile "minimal" TUI.initState).enabled
        = (TUI.apply_profile "minimal" allFalseState).enabled
      ∧ ∀ c ∈ CATEGORIES,
          dictGet (TUI.apply_profile "minimal" TUI.initState).enabled c.id
            = some ((["ai", "telemetry", "brave"] : List String).contains c.id)) :=
  ⟨by decide, by decide, by decide,
   c4_apply_profile_total_overwrite "minimal"
     { name := "Minimal", desc := "Basic privacy - only essentials",
       categories := ["ai", "telemetry", "brave"] }
     TUI.initState allFalseState (by decide) (by decide) (by decide)⟩

/-- C9: the enabled-set starts with exactly one (all-true) entry per
catalog category, and `apply_profile`, a single-category toggle, and
toggle-all each preserve that domain exactly (the key list stays the
catalog id list, which is duplicate-free). -/
theorem c9_enabled_domain_invariant :
    EnabledWF TUI.initState.enabled
    ∧ (∀ (pk : String) (st : TUIState), EnabledWF st.enabled →
        EnabledWF (TUI.apply_profile pk st).enabled)
    ∧ (∀ (idx : Nat) (st : TUIState), EnabledWF st.enabled →
        EnabledWF (TUI.toggle_with_feedback idx st).enabled)
    ∧ (∀ (st : TUIState), EnabledWF st.enabled →
        EnabledWF (TUI.toggle_all st).enabled)
    ∧ (CATEGORIES.map Category.id).Nodup := by
  refine ⟨by decide, ?_, ?_, ?_, catalog_ids_nodup⟩
  · intro pk st h
    have h2 : st.enabled.map Prod.fst = CATEGORIES.map Category.id := h
    cases hp : dictGet PROFILES pk with
    | none =>
      have he : TUI.apply_profile pk st = st := by simp [TUI.apply_profile, hp]
      rw [he]; exact h
    | some profile =>
      have happly : (TUI.apply_profile pk st).enabled
          = (CATEGORIES.foldl (TUI.applyStep profile.categories) st).enabled := by
        simp [TUI.apply_profile, hp]
      show (TUI.apply_profile pk st).enabled.map Prod.fst = CATEGORIES.map Category.id
      rw [happly, applyFold_keys profile.categories CATEGORIES st
        (fun c hc => by rw [h2]; exact List.mem_map_of_mem Category.id hc)]
      exact h2
  · intro idx st h
    have h2 : st.enabled.map Prod.fst = CATEGORIES.map Category.id := h
    by_cases hidx : 1 ≤ idx ∧ idx ≤ 8
    · cases hg : CATEGORIES[idx - 1]? with
      | none =>
        have he : TUI.toggle_with_feedback idx st = st := by
          simp [TUI.toggle_with_feedback, hidx, hg]
        rw [he]; exact h
      | some c =>
        have he : (TUI.toggle_with_feedback idx st).enabled
            = dictSet st.enabled c.id (!((dictGet st.enabled c.id).getD false)) := by
          simp [TUI.toggle_with_feedback, hidx, hg]
        have hmem : c.id ∈ st.enabled.map Prod.fst := by
          rw [h2]
          have hg2 : CATEGORIES.get? (idx - 1) = some c := by
            simpa [List.get?_eq_getElem?] using hg
          exact List.mem_map_of_mem Category.id (List.get?_mem hg2)
        show (TUI.toggle_with_feedback idx st).enabled.map Prod.fst
          = CATEGORIES.map Category.id
        rw [he, keys_dictSet_of_mem _ _ _ hmem]
        exact h2
    · have he : TUI.toggle_with_feedback idx st = st := by
        simp [TUI.toggle_with_feedback, hidx]
      rw [he]; exact h
  · intro st h
    have h2 : st.enabled.map Prod.fst = CATEGORIES.map Category.id := h
    have he : (TUI.toggle_all st).enabled
        = st.enabled.map (fun kv => (kv.1, !(st.enabled.any (fun kv2 => kv2.2)))) := by
      simp [TUI.toggle_all]
    show (TUI.toggle_all st).enabled.map Prod.fst = CATEGORIES.map Category.id
    rw [he, List.map_map]
    exact h2

/-- Witness for C9: the invariant holds at the initial state and is
kept by one application of each mutating operation. -/
theorem c9_witness :
    EnabledWF TUI.initState.enabled
    ∧ EnabledWF (TUI.apply_profile "balanced" TUI.initState).enabled
    ∧ EnabledWF (TUI.toggle_with_feedback 3 TUI.initState).enabled
    ∧ EnabledWF (TUI.toggle_all TUI.initState).enabled :=
  ⟨c9_enabled_domain_invariant.1,
   c9_enabled_domain_invariant.2.1 "balanced" TUI.initState
     c9_enabled_domain_invariant.1,
   c9_enabled_domain_invariant.2.2.1 3 TUI.initState
     c9_enabled_domain_invariant.1,
   c9_enabled_domain_invariant.2.2.2.1 TUI.initState
     c9_enabled_domain_invariant.1⟩

/-! ## C5: unterminated block comments -/

theorem dropBlock_eq_none_iff : ∀ l : List Char,
    dropBlock l = none ↔ containsClose l = false := by
  intro l
  induction l with
  | nil => simp [dropBlock, containsClose]
  | cons c rest ih =>
    by_cases hc : c = '*'
    · subst hc
      cases rest with
      | nil => simp [dropBlock, containsClose]
      | cons c2 rest2 =>
        by_cases h2 : c2 = '/'
        · subst h2
          simp [dropBlock, containsClose]
        · have hd : dropBlock ('*' :: c2 :: rest2) = dropBlock (c2 :: rest2) := by
            simp [dropBlock, h2]
          have hcc : containsClose ('*' :: c2 :: rest2) = containsClose (c2 :: rest2) := by
            simp [containsClose, h2]
          rw [hd, hcc]
          exact ih
    · have hd : dropBlock (c :: rest) = dropBlock rest := by
        simp [dropBlock, hc]
      have hcc : containsClose (c :: rest) = containsClose rest := by
        simp [containsClose, hc]
      rw [hd, hcc]
      exact ih

/-- C5 counterexample: for the input `"/* abc"`, which holds a block
comment opener with no later close, the claim demands that everything
from the opener is deleted (result `""`); the code instead returns the
input unchanged, because the lazy regex alternative for block comments
requires a closing sequence to match at all. -/
theorem c5_counterexample :
    strip_json_comments "/* abc" = "/* abc" ∧ "/* abc" ≠ "" := by
  exact ⟨by decide, by decide⟩

/-- C5 (amended): an unterminated block comment is not removed: when
the input starts with the opener and the remainder holds no closing
sequence, the opener is copied through unchanged and scanning simply
continues on the remainder; nothing is consumed to end-of-input. -/
theorem c5_unterminated_block_left_in_place (tail : List Char)
    (h : containsClose tail = false) :
    strip_json_comments (String.mk ('/' :: '*' :: tail))
      = String.mk ('/' :: '*' :: stripGo tail.length tail) := by
  have hdb : dropBlock tail = none := (dropBlock_eq_none_iff tail).mpr h
  have key : strip_json_comments (String.mk ('/' :: '*' :: tail))
      = String.mk (match dropBlock tail with
          | some rem => stripGo (tail.length + 1) rem
          | none => '/' :: stripGo (tail.length + 1) ('*' :: tail)) := rfl
  rw [key, hdb]
  have key2 : stripGo (tail.length + 1) ('*' :: tail)
      = '*' :: stripGo tail.length tail := rfl
  rw [key2]

/-- Witness for C5 (amended) at the tail `" abc"`. -/
theorem c5_witness :
    containsClose [' ', 'a', 'b', 'c'] = false
    ∧ strip_json_comments (String.mk ('/' :: '*' :: [' ', 'a', 'b', 'c']))
        = String.mk ('/' :: '*' :: stripGo (List.length [' ', 'a', 'b', 'c'])
            [' ', 'a', 'b', 'c']) :=
  ⟨by decide, c5_unterminated_block_left_in_place [' ', 'a', 'b', 'c'] (by decide)⟩

/-! ## Validator lemmas and claims C6, C7 -/

theorem expected_types_keys_nodup : (expected_types.map Prod.fst).Nodup := by decide

theorem typeWarnings_foldl (policies : Dict PyValue) :
    ∀ (table : List (String × PyKind)) (init : List String),
    table.foldl (fun ws kt =>
      match dictGet policies kt.1 with
      | some value =>
        if isinst value kt.2 then ws else ws ++ [mismatchMsg kt.1 kt.2 value]
      | none => ws) init
    = init ++ table.filterMap (fun kt =>
        match dictGet policies kt.1 with
        | some value =>
          if isinst value kt.2 then none else some (mismatchMsg kt.1 kt.2 value)
        | none => none) := by
  intro table
  induction table with
  | nil => intro init; simp
  | cons kt rest ih =>
    intro init
    rw [List.foldl_cons, List.filterMap_cons]
    cases hg : dictGet policies kt.1 with
    | none => simp only [hg]; rw [ih init]
    | some v =>
      simp only [hg]
      by_cases hi : isinst v kt.2
      · simp only [hi, if_true]
        rw [ih init]
      · simp only [hi, Bool.false_eq_true, if_false]
        rw [ih (init ++ [mismatchMsg kt.1 kt.2 v])]
        simp [List.append_assoc]

theorem filterMap_eq_single {β : Type} (key : String) (g : PyKind → Option β) :
    ∀ (table : List (String × PyKind)) (kind : PyKind),
    (table.map Prod.fst).Nodup → dictGet table key = some kind →
    table.filterMap (fun kt => if kt.1 = key then g kt.2 else none)
      = (g kind).toList := by
  intro table
  induction table with
  | nil => intro kind _ hg; simp [dictGet] at hg
  | cons kt rest ih =>
    intro kind hnd hg
    obtain ⟨k1, t1⟩ := kt
    simp only [List.map_cons, List.nodup_cons] at hnd
    rw [List.filterMap_cons]
    by_cases h1 : k1 = key
    · subst h1
      have hkind : t1 = kind := by
        simpa [dictGet] using hg
      subst hkind
      have hrestnone :
          rest.filterMap (fun kt => if kt.1 = k1 then g kt.2 else none) = [] := by
        rw [List.filterMap_eq_nil_iff]
        intro kt2 hm
        have hne : kt2.1 ≠ k1 := by
          intro he
          exact hnd.1 (he ▸ List.mem_map_of_mem Prod.fst hm)
        simp [hne]
      cases hgk : g t1 <;> simp [hgk, hrestnone, Option.toList]
    · have hg2 : dictGet rest key = some kind := by
        simpa [dictGet, h1] using hg
      simp only [h1, if_false]
      rw [ih kind hnd.2 hg2]

/-- C6 counterexample: `SafeBrowsingProtectionLevel` is an integer-kind
key, yet mapping it to a boolean produces no warning at all, because
Python\x27s `bool` is a subclass of `int` and `isinstance(True, int)`
holds; the claim demands a mismatch warning here. -/
theorem c6_counterexample :
    validate_policies (.dict [("SafeBrowsingProtectionLevel", .bool true)]) = []
    ∧ dictGet expected_types "SafeBrowsingProtectionLevel" = some PyKind.int := by
  exact ⟨by decide, by decide⟩

/-- C6 (amended): for a single-entry document whose key is in the type
table, `validate_policies` emits the mismatch warning (naming key,
expected kind and actual kind) exactly when the value fails Python\x27s
`isinstance` check — under which a boolean counts as an integer —
followed by the update advisory when applicable; in particular
`{"BraveAIChatEnabled": "false"}` yields exactly the boolean/str
mismatch warning, and an integer-kind key holding a boolean yields no
warning. -/
theorem c6_type_warnings (key : String) (kind : PyKind) (v : PyValue)
    (h : dictGet expected_types key = some kind) :
    validate_policies (.dict [(key, v)])
      = (if isinst v kind then [] else [mismatchMsg key kind v])
        ++ (if key = "ComponentUpdatesEnabled" ∧ isFalseBool v = true
            then [advisoryMsg] else [])
    ∧ validate_policies (.dict [("BraveAIChatEnabled", .str "false")])
        = [mismatchMsg "BraveAIChatEnabled" .bool (.str "false")]
    ∧ validate_policies (.dict [("SafeBrowsingProtectionLevel", .bool true)]) = [] := by
  refine ⟨?_, by decide, by decide⟩
  rw [validate_policies]
  rw [typeWarnings_foldl [(key, v)] expected_types []]
  rw [List.filterMap_congr (g := fun kt : String × PyKind =>
    if kt.1 = key then (if isinst v kt.2 then none else some (mismatchMsg key kt.2 v))
    else none) ?hcongr]
  case hcongr =>
    intro kt _
    by_cases hk : kt.1 = key
    · simp [hk, dictGet]
    · have hne : key ≠ kt.1 := Ne.symm hk
      simp [hk, dictGet, hne]
  rw [filterMap_eq_single key
    (fun t => if isinst v t then none else some (mismatchMsg key t v))
    expected_types kind expected_types_keys_nodup h]
  by_cases hc : key = "ComponentUpdatesEnabled"
  · subst hc
    have hcu : dictGet [("ComponentUpdatesEnabled", v)] "ComponentUpdatesEnabled"
        = some v := by simp [dictGet]
    rw [hcu]
    cases hgk : isinst v kind <;> by_cases hf : isFalseBool v = true <;>
      simp [hgk, hf, Option.toList]
  · have hcu : dictGet [(key, v)] "ComponentUpdatesEnabled" = none := by
      simp [dictGet, hc]
    rw [hcu]
    cases hgk : isinst v kind <;> simp [hgk, hc, Option.toList]

/-- Witness for C6 (amended): the string-kind key `WebRtcIPHandling`
holding an integer gets exactly its mismatch warning. -/
theorem c6_witness :
    dictGet expected_types "WebRtcIPHandling" = some PyKind.str
    ∧ validate_policies (.dict [("WebRtcIPHandling", .int 5)])
        = (if isinst (.int 5) PyKind.str then []
           else [mismatchMsg "WebRtcIPHandling" PyKind.str (.int 5)])
          ++ (if "WebRtcIPHandling" = "ComponentUpdatesEnabled"
                ∧ isFalseBool (.int 5) = true then [advisoryMsg] else []) :=
  ⟨by decide,
   (c6_type_warnings "WebRtcIPHandling" PyKind.str (.int 5) (by decide)).1⟩

/-- C7: the validator never fails and behaves as claimed on the three
scenarios: `{"ComponentUpdatesEnabled": false}` yields exactly the one
update-safety advisory; any non-mapping input yields exactly the one
object warning with no key-level checks; and when a type mismatch and
the advisory occur together the advisory is emitted last. -/
theorem c7_validator_advisory_and_nondict :
    validate_policies (.dict [("ComponentUpdatesEnabled", .bool false)])
      = [advisoryMsg]
    ∧ (∀ v : PyValue, validate_policies (.nondict v) = [notDictMsg])
    ∧ validate_policies (.dict [("BraveAIChatEnabled", .str "x"),
        ("ComponentUpdatesEnabled", .bool false)])
      = [mismatchMsg "BraveAIChatEnabled" .bool (.str "x"), advisoryMsg] := by
  refine ⟨by decide, ?_, by decide⟩
  intro v
  rfl

/-! ## Ordering lemmas and claim C8 -/

theorem lexLt_irrefl : ∀ l : List Char, lexLt l l = false := by
  intro l
  induction l with
  | nil => rfl
  | cons a as ih => simp [lexLt, ih]

theorem lexLt_trans : ∀ a b c : List Char,
    lexLt a b = true → lexLt b c = true → lexLt a c = true := by
  intro a
  induction a with
  | nil =>
    intro b c hab hbc
    cases b with
    | nil => simp [lexLt] at hab
    | cons b1 bs =>
      cases c with
      | nil => simp [lexLt] at hbc
      | cons c1 cs => simp [lexLt]
  | cons a1 as ih =>
    intro b c hab hbc
    cases b with
    | nil => simp [lexLt] at hab
    | cons b1 bs =>
      cases c with
      | nil => simp [lexLt] at hbc
      | cons c1 cs =>
        simp only [lexLt] at hab hbc ⊢
        by_cases h1 : a1.toNat < b1.toNat
        · by_cases h2 : b1.toNat < c1.toNat
          · have h3 : a1.toNat < c1.toNat := Nat.lt_trans h1 h2
            simp [h3]
          · by_cases h4 : c1.toNat < b1.toNat
            · simp [h2, h4] at hbc
            · have h3 : a1.toNat < c1.toNat := by omega
              simp [h3]
        · by_cases h4 : b1.toNat < a1.toNat
          · simp [h1, h4] at hab
          · have hab2 : lexLt as bs = true := by simpa [h1, h4] using hab
            by_cases h2 : b1.toNat < c1.toNat
            · have h3 : a1.toNat < c1.toNat := by omega
              simp [h3]
            · by_cases h5 : c1.toNat < b1.toNat
              · simp [h2, h5] at hbc
              · have hbc2 : lexLt bs cs = true := by simpa [h2, h5] using hbc
                have h3 : ¬ a1.toNat < c1.toNat := by omega
                have h6 : ¬ c1.toNat < a1.toNat := by omega
                simp [h3, h6, ih bs cs hab2 hbc2]

theorem strLtB_irrefl (s : String) : strLtB s s = false := lexLt_irrefl s.data

theorem strLtB_trans (s t u : String) (h1 : strLtB s t = true) (h2 : strLtB t u = true) :
    strLtB s u = true := lexLt_trans s.data t.data u.data h1 h2

theorem length_insertDesc (s : String) :
    ∀ l : List String, (insertDesc s l).length = l.length + 1 := by
  intro l
  induction l with
  | nil => rfl
  | cons t ts ih => by_cases h : strLtB t s <;> simp [insertDesc, h, ih]

theorem sortDesc_eq_nil_iff (l : List String) : sortDesc l = [] ↔ l = [] := by
  cases l with
  | nil => simp [sortDesc]
  | cons s rest =>
    simp only [sortDesc, List.foldr_cons]
    constructor
    · intro h
      have hlen := congrArg List.length h
      rw [length_insertDesc] at hlen
      simp at hlen
    · intro h
      exact absurd h (by simp)

theorem sortDesc_head_max : ∀ (l : List String) (b : String),
    (sortDesc l).head? = some b → b ∈ l ∧ ∀ x ∈ l, strLtB b x = false := by
  intro l
  induction l with
  | nil => intro b h; simp [sortDesc] at h
  | cons s rest ih =>
    intro b h
    have hs : sortDesc (s :: rest) = insertDesc s (sortDesc rest) := rfl
    rw [hs] at h
    cases hrest : sortDesc rest with
    | nil =>
      have hrnil : rest = [] := (sortDesc_eq_nil_iff rest).1 hrest
      rw [hrest] at h
      have hb : s = b := by simpa [insertDesc] using h
      subst b
      subst hrnil
      refine ⟨List.mem_cons_self _ _, ?_⟩
      intro x hx
      rcases List.mem_cons.1 hx with hx | hx
      · subst hx; exact strLtB_irrefl _
      · simp at hx
    | cons t ts =>
      rw [hrest] at h
      have iht := ih t (by rw [hrest]; rfl)
      by_cases hts : strLtB t s
      · have hb : s = b := by simpa [insertDesc, hts] using h
        subst b
        refine ⟨List.mem_cons_self _ _, ?_⟩
        intro x hx
        rcases List.mem_cons.1 hx with hx | hx
        · subst hx; exact strLtB_irrefl _
        · cases hxx : strLtB s x with
          | false => rfl
          | true =>
            have htx : strLtB t x = true := strLtB_trans t s x hts hxx
            rw [iht.2 x hx] at htx
            exact Bool.noConfusion htx
      · have hb : t = b := by simpa [insertDesc, hts] using h
        subst b
        refine ⟨List.mem_cons_of_mem _ iht.1, ?_⟩
        intro x hx
        rcases List.mem_cons.1 hx with hx | hx
        · subst hx
          simpa using hts
        · exact iht.2 x hx

/-- C8: `find_latest_backup` over the sibling filenames returns none
exactly when no sibling matches the backup glob for the stem, and
otherwise returns a matching sibling that is greatest in the
code-point lexicographic order (so the reverse-lexicographically
greatest name); for the two fixed-width timestamps of the claim it
returns the later one. -/
theorem c8_find_latest_backup (stem : String) (siblings : List String) :
    (find_latest_backup stem siblings = none
      ↔ ∀ nm ∈ siblings, matchesBackup stem nm = false)
    ∧ (∀ b, find_latest_backup stem siblings = some b →
        b ∈ siblings ∧ matchesBackup stem b = true
        ∧ ∀ nm ∈ siblings, matchesBackup stem nm = true → strLtB b nm = false)
    ∧ find_latest_backup "policies"
        ["policies.json", "policies.backup_20240101_120000",
         "policies.backup_20240102_120000"]
      = some "policies.backup_20240102_120000" := by
  refine ⟨?_, ?_, by decide⟩
  · rw [find_latest_backup, List.head?_eq_none_iff, sortDesc_eq_nil_iff,
      List.filter_eq_nil_iff]
    constructor
    · intro h nm hm
      have hx := h nm hm
      simpa using hx
    · intro h nm hm
      simp [h nm hm]
  · intro b hb
    rw [find_latest_backup] at hb
    obtain ⟨hmem, hge⟩ :=
      sortDesc_head_max (siblings.filter (fun nm => matchesBackup stem nm)) b hb
    rw [List.mem_filter] at hmem
    exact ⟨hmem.1, hmem.2,
      fun nm hnm hm => hge nm (List.mem_filter.2 ⟨hnm, hm⟩)⟩

/-- Witness for C8 at the two timestamped backups of the claim. -/
theorem c8_witness :
    find_latest_backup "policies"
      ["policies.backup_20240101_120000", "policies.backup_20240102_120000"]
      = some "policies.backup_20240102_120000"
    ∧ ("policies.backup_20240102_120000"
        ∈ ["policies.backup_20240101_120000", "policies.backup_20240102_120000"]
      ∧ matchesBackup "policies" "policies.backup_20240102_120000" = true
      ∧ ∀ nm ∈ ["policies.backup_20240101_120000",
                "policies.backup_20240102_120000"],
          matchesBackup "policies" nm = true
          → strLtB "policies.backup_20240102_120000" nm = false) :=
  ⟨by decide,
   (c8_find_latest_backup "policies"
     ["policies.backup_20240101_120000", "policies.backup_20240102_120000"]).2.1
     "policies.backup_20240102_120000" (by decide)⟩
